import Mathlib

/-
  Verification of the Drive-to-GitHub mirroring pipeline (server.js).

  The source is shallowly embedded:
  * the Drive service, as seen by `collectDriveFiles`, is a value of
    type `DriveNode`: a leaf carries the byte responses the service
    would give to an export or raw-download request, and a folder
    carries the successive pages its child listing returns, followed by
    an optional listing error (a page fetch that rejects);
  * the GitHub service, as seen by `createGitHubRepoAndPush`, is a
    record of response functions (`GhService`); the embedding of the
    publisher additionally returns the ordered trace of HTTP calls it
    issued, so that call-ordering properties can be stated.
  Byte buffers are `List Nat`; fallible remote calls are `Except String`.
-/

namespace DriveGit

/-- Responses of the Drive content endpoints for one file: `exp fmt` is
the body of `files.export` with target MIME `fmt`, `raw` the body of
`files.get` with `alt=media`. -/
structure ContentSrc where
  exp : String → Except String (List Nat)
  raw : Except String (List Nat)

/-- A Drive item as the walk observes it: a non-folder file (name,
mimeType, content endpoints) or a folder whose listing yields `pages`
in order and then, optionally, a failing page fetch `listErr`. -/
inductive DriveNode where
  | leaf (name : String) (mimeType : String) (content : ContentSrc)
  | folder (name : String) (pages : List (List DriveNode)) (listErr : Option String)

/-- Output unit of the collector, as pushed on `results` in server.js. -/
structure CollectedFile where
  path : String
  buffer : List Nat
  deriving DecidableEq, Repr

/-- server.js `pickExportMimeType` (lines 102-108). -/
def pickExportMimeType (mimeType : String) : Option String :=
  if mimeType = "application/vnd.google-apps.document" then some "text/plain"
  else if mimeType = "application/vnd.google-apps.spreadsheet" then some "text/csv"
  else if mimeType = "application/vnd.google-apps.presentation" then some "application/pdf"
  else none

/-- server.js `downloadFileAsBuffer` (lines 121-133): export when the
mime type is Google-native, raw download otherwise. -/
def downloadFileAsBuffer (mimeType : String) (cs : ContentSrc) : Except String (List Nat) :=
  match pickExportMimeType mimeType with
  | some em => cs.exp em
  | none => cs.raw

mutual

/-- Processing of one listed child inside `walkFolder`'s `for` loop
(server.js lines 147-154): folders recurse with an extended path
prefix, files are downloaded and emitted at `pfx ++ name`. -/
def walkNode : DriveNode → String → Except String (List CollectedFile)
  | .leaf name mimeType cs, pfx =>
    match downloadFileAsBuffer mimeType cs with
    | .error e => .error e
    | .ok buf => .ok [⟨pfx ++ name, buf⟩]
  | .folder name ps le, pfx => walkPages ps le (pfx ++ name ++ "/")

/-- The `for (const f of files)` loop body over one page's entries. -/
def walkPage : List DriveNode → String → Except String (List CollectedFile)
  | [], _ => .ok []
  | c :: rest, pfx =>
    match walkNode c pfx with
    | .error e => .error e
    | .ok a =>
      match walkPage rest pfx with
      | .error e => .error e
      | .ok b => .ok (a ++ b)

/-- The `do ... while (pageToken)` pagination loop of `walkFolder`
(server.js lines 138-155): pages are fetched and processed in order;
a failing page fetch after them aborts the walk. -/
def walkPages : List (List DriveNode) → Option String → String → Except String (List CollectedFile)
  | [], none, _ => .ok []
  | [], some e, _ => .error e
  | p :: rest, le, pfx =>
    match walkPage p pfx with
    | .error e => .error e
    | .ok a =>
      match walkPages rest le pfx with
      | .error e => .error e
      | .ok b => .ok (a ++ b)

end

/-- server.js `collectDriveFiles` (lines 111-167): fetch the root's
metadata (`metaRes`); a folder root is walked with prefix
`name ++ "/"`, a file root is downloaded and emitted under its bare
name. A metadata failure propagates. -/
def collectDriveFiles (metaRes : Except String DriveNode) : Except String (List CollectedFile) :=
  match metaRes with
  | .error e => .error e
  | .ok (.leaf name mimeType cs) =>
    match downloadFileAsBuffer mimeType cs with
    | .error e => .error e
    | .ok buf => .ok [⟨name, buf⟩]
  | .ok (.folder name ps le) => walkPages ps le (name ++ "/")

/-! ## Publisher (`createGitHubRepoAndPush`, server.js lines 170-251) -/

/-- The fields of the repo-creation response the code reads:
`repoJson.owner.login` and `repoJson.html_url`. -/
structure RepoInfo where
  login : String
  html_url : String
  deriving DecidableEq, Repr

/-- One element of the tree-creation payload (server.js lines 210-212). -/
structure TreeItem where
  path : String
  mode : String
  type : String
  sha : String
  deriving DecidableEq, Repr

/-- A blob record as pushed on `blobs` (server.js line 205). -/
structure BlobRec where
  path : String
  sha : String
  deriving DecidableEq, Repr

/-- Responses of the GitHub endpoints the publisher calls: repo
creation keyed by repo name, blob creation keyed by the uploaded
content, tree creation keyed by the tree payload, commit creation
keyed by message and tree sha, ref creation keyed by ref name and
commit sha. An `error` value models a non-ok HTTP response whose body
is the carried text. -/
structure GhService where
  userRepos : String → Except String RepoInfo
  gitBlobs : List Nat → Except String String
  gitTrees : List TreeItem → Except String String
  gitCommits : String → String → Except String String
  gitRefs : String → String → Except String String

/-- One HTTP call issued by the publisher, in issue order. -/
inductive GhEvent where
  | repoCall (name : String)
  | blobCall (content : List Nat)
  | treeCall (items : List TreeItem)
  | commitCall (message : String) (treeSha : String)
  | refCall (ref : String) (sha : String)
  deriving DecidableEq, Repr

/-- The fixed commit message of server.js line 229. -/
def commitMessage : String := "Initial commit — import from Google Drive"

/-- The `for (const f of files)` blob loop (server.js lines 192-206):
each file's buffer is submitted to the blob endpoint; a non-ok
response throws, otherwise `{path, sha}` is recorded. Returns the
outcome together with the trace of blob calls issued. -/
def createBlobs (svc : GhService) : List CollectedFile →
    Except String (List BlobRec) × List GhEvent
  | [] => (.ok [], [])
  | f :: rest =>
    match svc.gitBlobs f.buffer with
    | .error e => (.error ("Failed to create blob: " ++ e), [.blobCall f.buffer])
    | .ok sha =>
      match createBlobs svc rest with
      | (.error e, tr) => (.error e, .blobCall f.buffer :: tr)
      | (.ok bs, tr) => (.ok (⟨f.path, sha⟩ :: bs), .blobCall f.buffer :: tr)

/-- server.js `createGitHubRepoAndPush` (lines 170-251): create the
repository, then all blobs, then the tree, then the commit, then the
`refs/heads/main` ref, each call guarded by the previous response
being ok. Returns the outcome (`html_url` on success) and the ordered
trace of calls issued. -/
def createGitHubRepoAndPush (svc : GhService) (repoName : String)
    (files : List CollectedFile) : Except String RepoInfo × List GhEvent :=
  match svc.userRepos repoName with
  | .error e => (.error ("Failed to create repo: " ++ e), [.repoCall repoName])
  | .ok repo =>
    match createBlobs svc files with
    | (.error e, tr) => (.error e, .repoCall repoName :: tr)
    | (.ok blobs, tr) =>
      let treeItems := blobs.map fun b => ({path := b.path, mode := "100644", type := "blob", sha := b.sha} : TreeItem)
      match svc.gitTrees treeItems with
      | .error e =>
        (.error ("Failed to create tree: " ++ e),
         .repoCall repoName :: (tr ++ [.treeCall treeItems]))
      | .ok treeSha =>
        match svc.gitCommits commitMessage treeSha with
        | .error e =>
          (.error ("Failed to create commit: " ++ e),
           .repoCall repoName :: (tr ++ [.treeCall treeItems, .commitCall commitMessage treeSha]))
        | .ok commitSha =>
          match svc.gitRefs "refs/heads/main" commitSha with
          | .error e =>
            (.error ("Failed to create ref: " ++ e),
             .repoCall repoName :: (tr ++ [.treeCall treeItems, .commitCall commitMessage treeSha,
               .refCall "refs/heads/main" commitSha]))
          | .ok _ =>
            (.ok repo,
             .repoCall repoName :: (tr ++ [.treeCall treeItems, .commitCall commitMessage treeSha,
               .refCall "refs/heads/main" commitSha]))

/-! ## Request handler fragment (`app.post("/create-repo")`, lines 253-292) -/

/-- Terminal outcome of the `/create-repo` handler after collection. -/
inductive HandlerOutcome where
  | noFiles
  | published (url : String)
  | failed (msg : String)
  deriving DecidableEq, Repr

/-- server.js lines 277-286: an empty collection short-circuits with
"No files found" before any GitHub call; otherwise the publisher runs
and its outcome (or thrown error) is reported. -/
def handleCollected (svc : GhService) (repoName : String)
    (files : List CollectedFile) : HandlerOutcome × List GhEvent :=
  if files.length = 0 then (.noFiles, [])
  else
    match createGitHubRepoAndPush svc repoName files with
    | (.ok repo, tr) => (.published repo.html_url, tr)
    | (.error e, tr) => (.failed e, tr)

/-- The collect-then-publish flow of the handler: a collection failure
is caught (line 288) before any GitHub call is made. -/
def createRepoFlow (svc : GhService) (repoName : String)
    (metaRes : Except String DriveNode) : HandlerOutcome × List GhEvent :=
  match collectDriveFiles metaRes with
  | .error e => (.failed e, [])
  | .ok files => handleCollected svc repoName files

/-! ## Drive-ID extraction (`extractDriveId`, lines 93-99) -/

/-- Characters matched by the character class of the regex
`[-\w]{25,}`: ASCII word characters and the hyphen. -/
def isDriveIdChar (c : Char) : Bool :=
  c.isAlphanum || c == '_' || c == '-'

/-- Semantics of `linkOrId.match(/[-\w]{25,}/)`: the regex engine
tries each start position left to right and at the first position
where 25 or more class characters follow, returns the greedy (maximal)
run from there; `none` when no position admits 25 class characters. -/
def firstIdRun : List Char → Option (List Char)
  | [] => none
  | c :: rest =>
    if ((c :: rest).takeWhile isDriveIdChar).length ≥ 25 then
      some ((c :: rest).takeWhile isDriveIdChar)
    else firstIdRun rest

/-- server.js `extractDriveId` (lines 93-99): `null` on a falsy
(empty) input, else the first regex match, else the input itself. -/
def extractDriveId (linkOrId : String) : Option String :=
  if linkOrId = "" then none
  else
    match firstIdRun linkOrId.data with
    | some run => some ⟨run⟩
    | none => some linkOrId

/-- The handler's guards around the Drive id (server.js lines 259-269):
a falsy `driveLinkOrId` is rejected as missing, then a falsy
`extractDriveId` result (null or empty string) is rejected with
"Could not extract Drive ID". -/
def resolveDriveId (driveLinkOrId : String) : Except String String :=
  if driveLinkOrId = "" then .error "Missing githubToken, repoName or driveLinkOrId"
  else
    match extractDriveId driveLinkOrId with
    | none => .error "Could not extract Drive ID from the provided link."
    | some d =>
      if d = "" then .error "Could not extract Drive ID from the provided link."
      else .ok d

/-! ## Derived observations used to state theorems about the walk -/

mutual

/-- The paths a successful walk of `n` emits, relative to the walk's
path prefix (the prefix is prepended to each element). -/
def relPathsNode : DriveNode → List String
  | .leaf name _ _ => [name]
  | .folder name ps _ => (relPathsPages ps).map fun r => name ++ "/" ++ r

/-- Relative paths emitted by one page's entries, in order. -/
def relPathsPage : List DriveNode → List String
  | [] => []
  | c :: rest => relPathsNode c ++ relPathsPage rest

/-- Relative paths emitted by a page sequence, in order. -/
def relPathsPages : List (List DriveNode) → List String
  | [] => []
  | p :: rest => relPathsPage p ++ relPathsPages rest

end

/-- Display name of a node. -/
def nodeName : DriveNode → String
  | .leaf name _ _ => name
  | .folder name _ _ => name

/-- Boolean test for a list of pairwise distinct strings. -/
def distinctStrings : List String → Bool
  | [] => true
  | s :: rest => (!rest.contains s) && distinctStrings rest

/-- Names of one page's entries, in order. -/
def namesPage (l : List DriveNode) : List String := l.map nodeName

/-- Names of all listed children of a folder, across pages, in order. -/
def namesPages (ps : List (List DriveNode)) : List String :=
  (ps.map namesPage).flatten

mutual

/-- Well-formed naming: every name in the tree is non-empty and
slash-free, and the children of each folder (across all of its pages)
have pairwise distinct names. -/
def goodNode : DriveNode → Bool
  | .leaf name _ _ => (name != "") && !name.data.contains '/'
  | .folder name ps _ =>
    (name != "") && !name.data.contains '/'
      && distinctStrings (namesPages ps) && goodPages ps

/-- `goodNode` for every entry of one page. -/
def goodPage : List DriveNode → Bool
  | [] => true
  | c :: rest => goodNode c && goodPage rest

/-- `goodNode` for every entry of every page. -/
def goodPages : List (List DriveNode) → Bool
  | [] => true
  | p :: rest => goodPage p && goodPages rest

end

mutual

/-- Some remote fetch needed by the walk of `n` fails: a leaf whose
chosen download (export or raw) rejects, or a folder one of whose page
fetches rejects, or any such failure among descendants. -/
def anyFailureNode : DriveNode → Bool
  | .leaf _ mimeType cs =>
    match downloadFileAsBuffer mimeType cs with
    | .error _ => true
    | .ok _ => false
  | .folder _ ps le => anyFailurePages ps le

/-- Failure somewhere among a page's entries. -/
def anyFailurePage : List DriveNode → Bool
  | [] => false
  | c :: rest => anyFailureNode c || anyFailurePage rest

/-- Failure in a page sequence or in the listing itself. -/
def anyFailurePages : List (List DriveNode) → Option String → Bool
  | [], none => false
  | [], some _ => true
  | p :: rest, le => anyFailurePage p || anyFailurePages rest le

end

/-- Direct-child test used to state the path-composition claims. -/
def isLeafNamed (target : String) : DriveNode → Bool
  | .leaf name _ _ => name == target
  | .folder _ _ _ => false

/-- Boolean success test for `Except`. -/
def exIsOk {ε α : Type} : Except ε α → Bool
  | .ok _ => true
  | .error _ => false

/-- The leading path segment of a string: its characters up to the
first slash. Used to separate sibling subtrees in uniqueness proofs. -/
def headSeg (s : String) : String := ⟨s.data.takeWhile (fun c => c != '/')⟩

/-! ## Concrete fixtures used by witnesses and counterexamples -/

/-- A GitHub service whose every endpoint answers ok. -/
def svcAllOk : GhService :=
  ⟨fun _ => .ok ⟨"me", "https://github.com/me/r"⟩, fun _ => .ok "bsha",
   fun _ => .ok "tsha", fun _ _ => .ok "csha", fun _ _ => .ok "rok"⟩

/-- A GitHub service whose blob endpoint always answers non-ok. -/
def svcBlobFail : GhService :=
  ⟨fun _ => .ok ⟨"me", "https://github.com/me/r"⟩, fun _ => .error "500 blob",
   fun _ => .ok "tsha", fun _ _ => .ok "csha", fun _ _ => .ok "rok"⟩

/-- A one-file collection. -/
def filesOne : List CollectedFile := [⟨"a.txt", [1, 2]⟩]

/-- A two-file collection. -/
def filesTwo : List CollectedFile := [⟨"a.txt", [1, 2]⟩, ⟨"b.txt", [3]⟩]

/-- Content endpoints that answer ok with a fixed body. -/
def okContent : ContentSrc := ⟨fun _ => .ok [0], .ok [0]⟩

/-- A folder whose listing holds two sibling files both named `a`. -/
def dupNameTree : DriveNode :=
  .folder "R" [[.leaf "a" "text/plain" okContent, .leaf "a" "text/plain" okContent]] none

/-- A single file whose display name is empty. -/
def emptyNameTree : DriveNode := .leaf "" "text/plain" okContent

/-- A folder whose listing holds two sibling files both named `L`. -/
def twoLeavesNamedL : DriveNode :=
  .folder "R" [[.leaf "L" "text/plain" okContent, .leaf "L" "text/plain" okContent]] none

/-- A file whose raw download rejects. -/
def failLeaf : DriveNode :=
  .leaf "f.bin" "application/octet-stream" ⟨fun _ => .ok [], .error "boom"⟩

/-- A well-formed nested tree: `R/docs/budget` and `R/logo.png`. -/
def nestedTree : DriveNode :=
  .folder "R"
    [[.folder "docs" [[.leaf "budget" "application/vnd.google-apps.spreadsheet" okContent]] none,
      .leaf "logo.png" "image/png" okContent]] none

/-- A three-page folder listing used for the pagination claim. -/
def threePageTree : DriveNode :=
  .folder "R"
    [[.leaf "p1" "text/plain" okContent],
     [.leaf "p2" "text/plain" okContent],
     [.leaf "p3" "text/plain" okContent]] none

/-! ## Supporting lemmas -/

theorem firstIdRun_length : ∀ (l : List Char) (run : List Char),
    firstIdRun l = some run → 25 ≤ run.length := by
  intro l
  induction l with
  | nil => intro run h; simp [firstIdRun] at h
  | cons c rest ih =>
    intro run h
    by_cases hc : ((c :: rest).takeWhile isDriveIdChar).length ≥ 25
    · rw [firstIdRun, if_pos hc] at h
      cases h
      exact hc
    · rw [firstIdRun, if_neg hc] at h
      exact ih run h

theorem createBlobs_ok (svc : GhService) : ∀ (files : List CollectedFile) (bs : List BlobRec),
    (createBlobs svc files).1 = .ok bs →
    (createBlobs svc files).2 = files.map (fun f => GhEvent.blobCall f.buffer)
  ∧ ∀ f ∈ files, exIsOk (svc.gitBlobs f.buffer) = true := by
  intro files
  induction files with
  | nil => intro bs _; simp [createBlobs]
  | cons f rest ih =>
    intro bs h
    rcases hb : svc.gitBlobs f.buffer with e | sha
    · rw [createBlobs, hb] at h
      simp at h
    · rcases hr : createBlobs svc rest with ⟨res, tr⟩
      rcases res with e | bs'
      · rw [createBlobs, hb, hr] at h
        simp at h
      · have ihr := ih bs' (by rw [hr])
        rw [hr] at ihr
        refine ⟨?_, ?_⟩
        · rw [createBlobs, hb, hr]
          simp only [List.map_cons, List.cons.injEq, true_and]
          exact ihr.1
        · intro g hg
          rcases List.mem_cons.mp hg with hg | hg
          · subst hg; simp [exIsOk, hb]
          · exact ihr.2 g hg

theorem createBlobs_events (svc : GhService) : ∀ (files : List CollectedFile) (e : GhEvent),
    e ∈ (createBlobs svc files).2 → ∃ f ∈ files, e = .blobCall f.buffer := by
  intro files
  induction files with
  | nil => intro e h; simp [createBlobs] at h
  | cons f rest ih =>
    intro e h
    rcases hb : svc.gitBlobs f.buffer with er | sha
    · rw [createBlobs, hb] at h
      simp at h
      exact ⟨f, by simp, h⟩
    · rcases hr : createBlobs svc rest with ⟨res, tr⟩
      have ihr := ih
      rw [hr] at ihr
      rcases res with er | bs'
      · rw [createBlobs, hb, hr] at h
        rcases List.mem_cons.mp h with h | h
        · exact ⟨f, by simp, h⟩
        · rcases ihr e h with ⟨g, hg, he⟩
          exact ⟨g, by simp [hg], he⟩
      · rw [createBlobs, hb, hr] at h
        rcases List.mem_cons.mp h with h | h
        · exact ⟨f, by simp, h⟩
        · rcases ihr e h with ⟨g, hg, he⟩
          exact ⟨g, by simp [hg], he⟩

theorem takeWhile_no_slash : ∀ (a : List Char), '/' ∉ a →
    a.takeWhile (fun c => c != '/') = a := by
  intro a
  induction a with
  | nil => intro _; rfl
  | cons c rest ih =>
    intro h
    simp only [List.mem_cons, not_or] at h
    rw [List.takeWhile_cons]
    have : (c != '/') = true := by simp [Ne.symm h.1]
    rw [this]
    simp [ih h.2]

theorem takeWhile_to_slash : ∀ (a b : List Char), '/' ∉ a →
    (a ++ '/' :: b).takeWhile (fun c => c != '/') = a := by
  intro a
  induction a with
  | nil => intro b _; simp [List.takeWhile_cons]
  | cons c rest ih =>
    intro b h
    simp only [List.mem_cons, not_or] at h
    rw [List.cons_append, List.takeWhile_cons]
    have : (c != '/') = true := by simp [Ne.symm h.1]
    rw [this]
    simp [ih b h.2]

theorem headSeg_no_slash (n : String) (h : '/' ∉ n.data) : headSeg n = n := by
  unfold headSeg
  rw [takeWhile_no_slash n.data h]

theorem headSeg_sub (n r : String) (h : '/' ∉ n.data) : headSeg (n ++ "/" ++ r) = n := by
  unfold headSeg
  have hd : (n ++ "/" ++ r).data = n.data ++ '/' :: r.data := by
    simp [String.data_append]
  rw [hd, takeWhile_to_slash n.data r.data h]

theorem slash_mem_sub (n r : String) : '/' ∈ (n ++ "/" ++ r).data := by
  have hd : (n ++ "/" ++ r).data = n.data ++ '/' :: r.data := by
    simp [String.data_append]
  rw [hd]
  simp

theorem relPathsNode_shape (c : DriveNode) :
    ∀ s ∈ relPathsNode c, s = nodeName c ∨ ∃ r, s = nodeName c ++ "/" ++ r := by
  cases c with
  | leaf name mime cs =>
    intro s hs
    simp [relPathsNode] at hs
    exact Or.inl (by simp [hs, nodeName])
  | folder name ps le =>
    intro s hs
    simp [relPathsNode] at hs
    rcases hs with ⟨r, _, hr⟩
    exact Or.inr ⟨r, by simp [hr.symm, nodeName]⟩

theorem relPathsNode_headSeg (c : DriveNode) (h : '/' ∉ (nodeName c).data) :
    ∀ s ∈ relPathsNode c, headSeg s = nodeName c := by
  intro s hs
  rcases relPathsNode_shape c s hs with he | ⟨r, he⟩
  · rw [he]; exact headSeg_no_slash _ h
  · rw [he]; exact headSeg_sub _ _ h

theorem relPathsNode_nonempty (c : DriveNode) (h : nodeName c ≠ "") :
    ∀ s ∈ relPathsNode c, s ≠ "" := by
  intro s hs
  rcases relPathsNode_shape c s hs with he | ⟨r, he⟩
  · rw [he]; exact h
  · rw [he]
    intro hc
    have := slash_mem_sub (nodeName c) r
    rw [hc] at this
    simp at this

mutual

theorem walkNode_paths : ∀ (n : DriveNode) (pfx : String) (l : List CollectedFile),
    walkNode n pfx = .ok l → l.map (·.path) = (relPathsNode n).map (fun r => pfx ++ r)
  | .leaf name mime cs, pfx, l, h => by
    rw [walkNode] at h
    rcases hd : downloadFileAsBuffer mime cs with e | buf
    · rw [hd] at h
      simp at h
    · rw [hd] at h
      injection h with h1
      subst h1
      simp [relPathsNode]
  | .folder name ps le, pfx, l, h => by
    rw [walkNode] at h
    have hps := walkPages_paths ps le (pfx ++ name ++ "/") l h
    rw [relPathsNode, hps]
    simp [List.map_map, Function.comp, String.append_assoc]

theorem walkPage_paths : ∀ (cs : List DriveNode) (pfx : String) (l : List CollectedFile),
    walkPage cs pfx = .ok l → l.map (·.path) = (relPathsPage cs).map (fun r => pfx ++ r)
  | [], pfx, l, h => by
    rw [walkPage] at h
    injection h with h1
    subst h1
    simp [relPathsPage]
  | c :: rest, pfx, l, h => by
    rw [walkPage] at h
    rcases hn : walkNode c pfx with e | a
    · rw [hn] at h; simp at h
    · rw [hn] at h
      rcases hr : walkPage rest pfx with e | b
      · rw [hr] at h; simp at h
      · rw [hr] at h
        injection h with h1
        subst h1
        have h2 := walkNode_paths c pfx a hn
        have h3 := walkPage_paths rest pfx b hr
        simp [relPathsPage, h2, h3]

theorem walkPages_paths : ∀ (ps : List (List DriveNode)) (le : Option String) (pfx : String)
    (l : List CollectedFile),
    walkPages ps le pfx = .ok l → l.map (·.path) = (relPathsPages ps).map (fun r => pfx ++ r)
  | [], none, pfx, l, h => by
    rw [walkPages] at h
    injection h with h1
    subst h1
    simp [relPathsPages]
  | [], some e, pfx, l, h => by
    rw [walkPages] at h
    simp at h
  | p :: rest, le, pfx, l, h => by
    rw [walkPages] at h
    rcases hp : walkPage p pfx with e | a
    · rw [hp] at h; simp at h
    · rw [hp] at h
      rcases hr : walkPages rest le pfx with e | b
      · rw [hr] at h; simp at h
      · rw [hr] at h
        injection h with h1
        subst h1
        have h2 := walkPage_paths p pfx a hp
        have h3 := walkPages_paths rest le pfx b hr
        simp [relPathsPages, h2, h3]

end

mutual

theorem anyFailureNode_errors : ∀ (n : DriveNode), anyFailureNode n = true →
    ∀ pfx, ∃ e, walkNode n pfx = .error e
  | .leaf name mime cs, h, pfx => by
    rw [anyFailureNode] at h
    rcases hd : downloadFileAsBuffer mime cs with e | buf
    · exact ⟨e, by rw [walkNode, hd]⟩
    · rw [hd] at h; simp at h
  | .folder name ps le, h, pfx => by
    rw [anyFailureNode] at h
    rcases anyFailurePages_errors ps le h (pfx ++ name ++ "/") with ⟨e, he⟩
    exact ⟨e, by rw [walkNode, he]⟩

theorem anyFailurePage_errors : ∀ (cs : List DriveNode), anyFailurePage cs = true →
    ∀ pfx, ∃ e, walkPage cs pfx = .error e
  | [], h, pfx => by rw [anyFailurePage] at h; simp at h
  | c :: rest, h, pfx => by
    rw [anyFailurePage] at h
    rcases hn : walkNode c pfx with e | a
    · exact ⟨e, by rw [walkPage, hn]⟩
    · have hcf : anyFailureNode c = false := by
        by_contra hcontra
        rcases anyFailureNode_errors c (by simpa using hcontra) pfx with ⟨e, he⟩
        rw [he] at hn
        exact absurd hn (by simp)
      rw [hcf] at h
      simp at h
      rcases anyFailurePage_errors rest h pfx with ⟨e, he⟩
      exact ⟨e, by rw [walkPage, hn, he]⟩

theorem anyFailurePages_errors : ∀ (ps : List (List DriveNode)) (le : Option String),
    anyFailurePages ps le = true → ∀ pfx, ∃ e, walkPages ps le pfx = .error e
  | [], none, h, pfx => by rw [anyFailurePages] at h; simp at h
  | [], some e, _, pfx => ⟨e, by rw [walkPages]⟩
  | p :: rest, le, h, pfx => by
    rw [anyFailurePages] at h
    rcases hp : walkPage p pfx with e | a
    · exact ⟨e, by rw [walkPages, hp]⟩
    · have hpf : anyFailurePage p = false := by
        by_contra hcontra
        rcases anyFailurePage_errors p (by simpa using hcontra) pfx with ⟨e, he⟩
        rw [he] at hp
        exact absurd hp (by simp)
      rw [hpf] at h
      simp at h
      rcases anyFailurePages_errors rest le h pfx with ⟨e, he⟩
      exact ⟨e, by rw [walkPages, hp, he]⟩

end

theorem relPathsPage_append : ∀ (a b : List DriveNode),
    relPathsPage (a ++ b) = relPathsPage a ++ relPathsPage b := by
  intro a b
  induction a with
  | nil => simp [relPathsPage]
  | cons c rest ih => simp [relPathsPage, ih]

theorem relPathsPages_flatten : ∀ (ps : List (List DriveNode)),
    relPathsPages ps = relPathsPage ps.flatten := by
  intro ps
  induction ps with
  | nil => simp [relPathsPages, relPathsPage]
  | cons p rest ih => simp [relPathsPages, ih, relPathsPage_append]

theorem namesPages_flatten : ∀ (ps : List (List DriveNode)),
    namesPages ps = ps.flatten.map nodeName := by
  intro ps
  induction ps with
  | nil => simp [namesPages, namesPage]
  | cons p rest ih =>
    simp [namesPages, namesPage] at ih ⊢
    simp [ih]

theorem goodPage_mem : ∀ (cs : List DriveNode), goodPage cs = true →
    ∀ c ∈ cs, goodNode c = true := by
  intro cs
  induction cs with
  | nil => intro _ c hc; simp at hc
  | cons d rest ih =>
    intro h c hc
    rw [goodPage] at h
    simp only [Bool.and_eq_true] at h
    rcases List.mem_cons.mp hc with hc | hc
    · subst hc; exact h.1
    · exact ih h.2 c hc

theorem goodPages_mem : ∀ (ps : List (List DriveNode)), goodPages ps = true →
    ∀ c ∈ ps.flatten, goodNode c = true := by
  intro ps
  induction ps with
  | nil => intro _ c hc; simp at hc
  | cons p rest ih =>
    intro h c hc
    rw [goodPages] at h
    simp only [Bool.and_eq_true] at h
    simp only [List.flatten_cons, List.mem_append] at hc
    rcases hc with hc | hc
    · exact goodPage_mem p h.1 c hc
    · exact ih h.2 c hc

theorem distinctStrings_head : ∀ (s : String) (rest : List String),
    distinctStrings (s :: rest) = true → s ∉ rest ∧ distinctStrings rest = true := by
  intro s rest h
  rw [distinctStrings] at h
  simp only [Bool.and_eq_true] at h
  obtain ⟨h1, h2⟩ := h
  refine ⟨?_, h2⟩
  intro hmem
  simp at h1
  exact h1 hmem

theorem string_append_left_cancel (a b c : String) (h : a ++ b = a ++ c) : b = c := by
  have hd := congrArg String.data h
  simp only [String.data_append] at hd
  exact String.ext (List.append_cancel_left hd)

theorem relPathsPage_mem : ∀ (cs : List DriveNode) (s : String),
    s ∈ relPathsPage cs → ∃ c ∈ cs, s ∈ relPathsNode c := by
  intro cs
  induction cs with
  | nil => intro s hs; simp [relPathsPage] at hs
  | cons c rest ih =>
    intro s hs
    rw [relPathsPage] at hs
    rcases List.mem_append.mp hs with hs | hs
    · exact ⟨c, by simp, hs⟩
    · rcases ih s hs with ⟨d, hd, hsd⟩
      exact ⟨d, by simp [hd], hsd⟩

theorem goodNode_name (c : DriveNode) (h : goodNode c = true) :
    nodeName c ≠ "" ∧ '/' ∉ (nodeName c).data := by
  cases c with
  | leaf name mime cs =>
    rw [goodNode] at h
    simp only [Bool.and_eq_true] at h
    refine ⟨by simpa using h.1, ?_⟩
    intro hmem
    have := h.2
    simp at this
    exact this hmem
  | folder name ps le =>
    rw [goodNode] at h
    simp only [Bool.and_eq_true] at h
    refine ⟨by simpa using h.1.1.1, ?_⟩
    intro hmem
    have := h.1.1.2
    simp at this
    exact this hmem

theorem sizeOf_page_append : ∀ (a b : List DriveNode),
    sizeOf (a ++ b) + 1 = sizeOf a + sizeOf b := by
  intro a b
  induction a with
  | nil => simp; omega
  | cons c rest ih => simp [List.cons.sizeOf_spec]; omega

theorem sizeOf_flatten_le : ∀ (ps : List (List DriveNode)),
    sizeOf ps.flatten ≤ sizeOf ps := by
  intro ps
  induction ps with
  | nil => simp [List.flatten]
  | cons p rest ih =>
    rw [List.flatten_cons]
    have h := sizeOf_page_append p rest.flatten
    simp [List.cons.sizeOf_spec]
    omega

theorem children_nodup : ∀ (k : Nat), ∀ (cs : List DriveNode), sizeOf cs ≤ k →
    (∀ c ∈ cs, goodNode c = true) → distinctStrings (cs.map nodeName) = true →
    (relPathsPage cs).Nodup := by
  intro k
  induction k using Nat.strong_induction_on with
  | _ k ih =>
    intro cs hk hg hd
    match cs, hk with
    | [], _ => simp [relPathsPage]
    | c :: rest, hk =>
      rw [relPathsPage]
      have hdh := distinctStrings_head (nodeName c) (rest.map nodeName) (by simpa using hd)
      have hrest : (relPathsPage rest).Nodup := by
        have hlt : sizeOf rest < k := by
          have hcons : sizeOf rest < sizeOf (c :: rest) := by
            simp [List.cons.sizeOf_spec]
          omega
        exact ih (sizeOf rest) hlt rest (Nat.le_refl _)
          (fun d hdm => hg d (by simp [hdm])) hdh.2
      have hhead : (relPathsNode c).Nodup := by
        match c, hg c (by simp) with
        | .leaf name mime csrc, _ => simp [relPathsNode]
        | .folder name ps le, hgc =>
          rw [relPathsNode, relPathsPages_flatten]
          rw [goodNode] at hgc
          simp only [Bool.and_eq_true] at hgc
          have hlt : sizeOf ps.flatten < k := by
            have h1 := sizeOf_flatten_le ps
            have h2 : sizeOf ps < sizeOf (DriveNode.folder name ps le) := by
              simp [DriveNode.folder.sizeOf_spec]
              omega
            have h3 : sizeOf (DriveNode.folder name ps le) < sizeOf (DriveNode.folder name ps le :: rest) := by
              simp [List.cons.sizeOf_spec]
              omega
            omega
          have hrec := ih (sizeOf ps.flatten) hlt ps.flatten (Nat.le_refl _)
            (goodPages_mem ps hgc.2)
            (by rw [← namesPages_flatten]; exact hgc.1.2)
          refine List.Nodup.map ?_ hrec
          intro x y hxy
          exact string_append_left_cancel (name ++ "/") x y hxy
      refine List.Nodup.append hhead hrest ?_
      intro s hs1 hs2
      rcases relPathsPage_mem rest s hs2 with ⟨d, hdmem, hsd⟩
      have hc1 : headSeg s = nodeName c :=
        relPathsNode_headSeg c (goodNode_name c (hg c (by simp))).2 s hs1
      have hc2 : headSeg s = nodeName d :=
        relPathsNode_headSeg d (goodNode_name d (hg d (by simp [hdmem]))).2 s hsd
      have : nodeName c ∈ rest.map nodeName := by
        rw [hc1.symm.trans hc2]
        exact List.mem_map_of_mem nodeName hdmem
      exact hdh.1 this

theorem goodRoot_nodup (root : DriveNode) (hg : goodNode root = true) :
    (relPathsNode root).Nodup := by
  cases root with
  | leaf name mime cs => simp [relPathsNode]
  | folder name ps le =>
    rw [goodNode] at hg
    simp only [Bool.and_eq_true] at hg
    rw [relPathsNode, relPathsPages_flatten]
    have hrec := children_nodup (sizeOf ps.flatten) ps.flatten (Nat.le_refl _)
      (goodPages_mem ps hg.2)
      (by rw [← namesPages_flatten]; exact hg.1.2)
    refine List.Nodup.map ?_ hrec
    intro x y hxy
    exact string_append_left_cancel (name ++ "/") x y hxy

theorem collect_paths (root : DriveNode) (l : List CollectedFile)
    (h : collectDriveFiles (.ok root) = .ok l) :
    l.map (·.path) = relPathsNode root := by
  cases root with
  | leaf name mime cs =>
    rw [collectDriveFiles] at h
    rcases hd : downloadFileAsBuffer mime cs with e | buf
    · rw [hd] at h; simp at h
    · rw [hd] at h
      injection h with h1
      subst h1
      simp [relPathsNode]
  | folder name ps le =>
    have hw : walkPages ps le (name ++ "/") = .ok l := h
    have := walkPages_paths ps le (name ++ "/") l hw
    rw [relPathsNode, this]

theorem mem_relPathsPage_of_mem : ∀ (cs : List DriveNode) (c : DriveNode), c ∈ cs →
    ∀ s ∈ relPathsNode c, s ∈ relPathsPage cs := by
  intro cs
  induction cs with
  | nil => intro c hc; simp at hc
  | cons d rest ih =>
    intro c hc s hs
    rw [relPathsPage]
    rcases List.mem_cons.mp hc with hc | hc
    · subst hc
      exact List.mem_append_left _ hs
    · exact List.mem_append_right _ (ih c hc s hs)

theorem relPathsPage_countP (L : String) (hL : '/' ∉ L.data) : ∀ (cs : List DriveNode),
    (relPathsPage cs).countP (fun s => s == L) = cs.countP (isLeafNamed L) := by
  intro cs
  induction cs with
  | nil => simp [relPathsPage]
  | cons c rest ih =>
    have hnode : (relPathsNode c).countP (fun s => s == L)
        = if isLeafNamed L c = true then 1 else 0 := by
      cases c with
      | leaf name mime csrc =>
        by_cases hn : name = L
        · subst hn; simp [relPathsNode, isLeafNamed]
        · simp [relPathsNode, isLeafNamed, hn]
      | folder name ps le =>
        rw [if_neg (by simp [isLeafNamed])]
        rw [List.countP_eq_zero]
        intro s hs
        rw [relPathsNode] at hs
        rcases List.mem_map.mp hs with ⟨r, _, hr⟩
        simp only [beq_iff_eq]
        intro hc
        rw [← hr] at hc
        exact hL (hc ▸ slash_mem_sub name r)
    rw [relPathsPage, List.countP_append, ih, hnode, List.countP_cons]
    omega

/-! ## Claims -/

/-- C4: the export-format mapping is an exact fixed function of the
leaf's content type — native document maps to `text/plain`, native
spreadsheet to `text/csv`, native presentation to `application/pdf` —
and every content type outside this mapping is fetched via the raw
(`alt=media`) download, its bytes passed through unmodified. -/
theorem export_mapping_exact :
    pickExportMimeType "application/vnd.google-apps.document" = some "text/plain"
  ∧ pickExportMimeType "application/vnd.google-apps.spreadsheet" = some "text/csv"
  ∧ pickExportMimeType "application/vnd.google-apps.presentation" = some "application/pdf"
  ∧ (∀ cs : ContentSrc,
        downloadFileAsBuffer "application/vnd.google-apps.document" cs = cs.exp "text/plain"
      ∧ downloadFileAsBuffer "application/vnd.google-apps.spreadsheet" cs = cs.exp "text/csv"
      ∧ downloadFileAsBuffer "application/vnd.google-apps.presentation" cs = cs.exp "application/pdf")
  ∧ ∀ m : String,
      m ∉ ["application/vnd.google-apps.document", "application/vnd.google-apps.spreadsheet",
           "application/vnd.google-apps.presentation"] →
      pickExportMimeType m = none ∧ ∀ cs : ContentSrc, downloadFileAsBuffer m cs = cs.raw := by
  refine ⟨rfl, rfl, rfl, fun cs => ⟨rfl, rfl, rfl⟩, ?_⟩
  intro m hm
  simp only [List.mem_cons, List.not_mem_nil, or_false, not_or] at hm
  obtain ⟨h1, h2, h3⟩ := hm
  have hp : pickExportMimeType m = none := by
    simp [pickExportMimeType, h1, h2, h3]
  exact ⟨hp, fun cs => by simp [downloadFileAsBuffer, hp]⟩

/-- Witness for C4 at the concrete non-native content type `image/png`. -/
theorem export_mapping_exact_witness :
    pickExportMimeType "image/png" = none
  ∧ downloadFileAsBuffer "image/png" ⟨fun _ => Except.ok [], Except.ok [7]⟩ = Except.ok [7] :=
  ⟨(export_mapping_exact.2.2.2.2 "image/png" (by decide)).1,
   (export_mapping_exact.2.2.2.2 "image/png" (by decide)).2 ⟨fun _ => Except.ok [], Except.ok [7]⟩⟩

/-- C9: for every non-empty input string the Drive-ID extraction
returns a non-null (and non-falsy) value, so the handler's
"Could not extract Drive ID" branch is unreachable whenever the
submitted `driveLinkOrId` is non-empty: `resolveDriveId` answers ok. -/
theorem extract_drive_id_total (s : String) (h : s ≠ "") :
    ∃ d, extractDriveId s = some d ∧ resolveDriveId s = .ok d := by
  rcases hr : firstIdRun s.data with _ | run
  · refine ⟨s, ?_, ?_⟩
    · simp [extractDriveId, h, hr]
    · simp [resolveDriveId, extractDriveId, h, hr]
  · have hlen : 25 ≤ run.length := firstIdRun_length s.data run hr
    have hne : (⟨run⟩ : String) ≠ "" := by
      intro hempty
      have : run = [] := by
        have := congrArg String.data hempty
        simpa using this
      rw [this] at hlen
      simp at hlen
    refine ⟨⟨run⟩, ?_, ?_⟩
    · simp [extractDriveId, h, hr]
    · simp [resolveDriveId, extractDriveId, h, hr, hne]

/-- Witness for C9 at a concrete short input (no 25-char run). -/
theorem extract_drive_id_total_witness :
    ∃ d, extractDriveId "abc" = some d ∧ resolveDriveId "abc" = .ok d :=
  extract_drive_id_total "abc" (by decide)

/-- C10: if the collector returns an empty file collection, the
publisher is never invoked — the handler's GitHub call trace is empty
and the request terminates reporting that no files were found. -/
theorem empty_collection_no_publish (svc : GhService) (repoName : String)
    (metaRes : Except String DriveNode) (h : collectDriveFiles metaRes = .ok []) :
    createRepoFlow svc repoName metaRes = (.noFiles, []) := by
  simp [createRepoFlow, h, handleCollected]

/-- Witness for C10: a folder whose listing is empty. -/
theorem empty_collection_no_publish_witness :
    createRepoFlow svcAllOk "r" (.ok (.folder "R" [] none)) = (.noFiles, []) :=
  empty_collection_no_publish svcAllOk "r" (.ok (.folder "R" [] none)) rfl

/-- C1: stage ordering of the publisher call trace. A tree-creation
call appears only after the repo call and after the blob calls for
every file of the current set, all of which returned successfully; a
commit-creation call appears only directly after a returned tree call;
a reference-creation call appears only directly after a returned
commit call. -/
theorem publisher_stage_ordering (svc : GhService) (repoName : String)
    (files : List CollectedFile) :
    (∀ it, GhEvent.treeCall it ∈ (createGitHubRepoAndPush svc repoName files).2 →
        (∃ rest, (createGitHubRepoAndPush svc repoName files).2
            = .repoCall repoName :: ((files.map fun f => GhEvent.blobCall f.buffer)
                ++ GhEvent.treeCall it :: rest))
      ∧ ∀ f ∈ files, exIsOk (svc.gitBlobs f.buffer) = true)
  ∧ (∀ msg ts, GhEvent.commitCall msg ts ∈ (createGitHubRepoAndPush svc repoName files).2 →
        ∃ it rest, (createGitHubRepoAndPush svc repoName files).2
            = .repoCall repoName :: ((files.map fun f => GhEvent.blobCall f.buffer)
                ++ GhEvent.treeCall it :: GhEvent.commitCall msg ts :: rest)
          ∧ exIsOk (svc.gitTrees it) = true)
  ∧ (∀ rf sha, GhEvent.refCall rf sha ∈ (createGitHubRepoAndPush svc repoName files).2 →
        ∃ it msg ts, (createGitHubRepoAndPush svc repoName files).2
            = .repoCall repoName :: ((files.map fun f => GhEvent.blobCall f.buffer)
                ++ [GhEvent.treeCall it, GhEvent.commitCall msg ts, GhEvent.refCall rf sha])
          ∧ exIsOk (svc.gitCommits msg ts) = true) := by
  rcases hu : svc.userRepos repoName with e | repo
  · refine ⟨?_, ?_, ?_⟩
    · intro it hmem
      simp [createGitHubRepoAndPush, hu] at hmem
    · intro msg ts hmem
      simp [createGitHubRepoAndPush, hu] at hmem
    · intro rf sha hmem
      simp [createGitHubRepoAndPush, hu] at hmem
  · rcases hcb : createBlobs svc files with ⟨res, tr⟩
    rcases res with e | blobs
    · have hev := createBlobs_events svc files
      rw [hcb] at hev
      refine ⟨?_, ?_, ?_⟩
      · intro it hmem
        simp [createGitHubRepoAndPush, hu, hcb] at hmem
        rcases hev _ hmem with ⟨g, _, he⟩
        exact absurd he (by simp)
      · intro msg ts hmem
        simp [createGitHubRepoAndPush, hu, hcb] at hmem
        rcases hev _ hmem with ⟨g, _, he⟩
        exact absurd he (by simp)
      · intro rf sha hmem
        simp [createGitHubRepoAndPush, hu, hcb] at hmem
        rcases hev _ hmem with ⟨g, _, he⟩
        exact absurd he (by simp)
    · have hok := createBlobs_ok svc files blobs (by rw [hcb])
      rw [hcb] at hok
      have htr : tr = files.map fun f => GhEvent.blobCall f.buffer := hok.1
      subst htr
      rcases ht : svc.gitTrees (blobs.map fun b =>
          ({path := b.path, mode := "100644", type := "blob", sha := b.sha} : TreeItem))
          with e | ts
      · refine ⟨?_, ?_, ?_⟩
        · intro it hmem
          simp [createGitHubRepoAndPush, hu, hcb, ht] at hmem
          subst hmem
          exact ⟨⟨[], by simp [createGitHubRepoAndPush, hu, hcb, ht]⟩, hok.2⟩
        · intro msg ts hmem
          simp [createGitHubRepoAndPush, hu, hcb, ht] at hmem
        · intro rf sha hmem
          simp [createGitHubRepoAndPush, hu, hcb, ht] at hmem
      · rcases hcm : svc.gitCommits commitMessage ts with e | cs
        · refine ⟨?_, ?_, ?_⟩
          · intro it hmem
            simp [createGitHubRepoAndPush, hu, hcb, ht, hcm] at hmem
            subst hmem
            exact ⟨⟨[GhEvent.commitCall commitMessage ts],
              by simp [createGitHubRepoAndPush, hu, hcb, ht, hcm]⟩, hok.2⟩
          · intro msg ts' hmem
            simp [createGitHubRepoAndPush, hu, hcb, ht, hcm] at hmem
            obtain ⟨h1, h2⟩ := hmem
            subst h1
            subst h2
            refine ⟨blobs.map fun b =>
              ({path := b.path, mode := "100644", type := "blob", sha := b.sha} : TreeItem),
              [], ?_, by simp [exIsOk, ht]⟩
            simp [createGitHubRepoAndPush, hu, hcb, ht, hcm]
          · intro rf sha hmem
            simp [createGitHubRepoAndPush, hu, hcb, ht, hcm] at hmem
        · rcases hrf : svc.gitRefs "refs/heads/main" cs with e | u <;>
          · refine ⟨?_, ?_, ?_⟩
            · intro it hmem
              simp [createGitHubRepoAndPush, hu, hcb, ht, hcm, hrf] at hmem
              subst hmem
              exact ⟨⟨[GhEvent.commitCall commitMessage ts,
                GhEvent.refCall "refs/heads/main" cs],
                by simp [createGitHubRepoAndPush, hu, hcb, ht, hcm, hrf]⟩, hok.2⟩
            · intro msg ts' hmem
              simp [createGitHubRepoAndPush, hu, hcb, ht, hcm, hrf] at hmem
              obtain ⟨h1, h2⟩ := hmem
              subst h1
              subst h2
              refine ⟨blobs.map fun b =>
                ({path := b.path, mode := "100644", type := "blob", sha := b.sha} : TreeItem),
                [GhEvent.refCall "refs/heads/main" cs], ?_, by simp [exIsOk, ht]⟩
              simp [createGitHubRepoAndPush, hu, hcb, ht, hcm, hrf]
            · intro rf sha hmem
              simp [createGitHubRepoAndPush, hu, hcb, ht, hcm, hrf] at hmem
              obtain ⟨h1, h2⟩ := hmem
              subst h1
              subst h2
              refine ⟨blobs.map fun b =>
                ({path := b.path, mode := "100644", type := "blob", sha := b.sha} : TreeItem),
                commitMessage, ts, ?_, by simp [exIsOk, hcm]⟩
              simp [createGitHubRepoAndPush, hu, hcb, ht, hcm, hrf]

/-- Witness for C1 on a concrete all-ok run with one file: the tree
call is present and the characterization instantiates. -/
theorem publisher_stage_ordering_witness :
    (∃ rest, (createGitHubRepoAndPush svcAllOk "r" filesOne).2
        = .repoCall "r" :: ((filesOne.map fun f => GhEvent.blobCall f.buffer)
            ++ GhEvent.treeCall [⟨"a.txt", "100644", "blob", "bsha"⟩] :: rest))
  ∧ ∀ f ∈ filesOne, exIsOk (svcAllOk.gitBlobs f.buffer) = true :=
  (publisher_stage_ordering svcAllOk "r" filesOne).1
    [⟨"a.txt", "100644", "blob", "bsha"⟩] (by decide)

/-- C2: if any single blob-creation call answers non-ok, the publisher
aborts with an error and no tree-creation call is ever issued. -/
theorem blob_failure_aborts_publish (svc : GhService) (repoName : String)
    (files : List CollectedFile)
    (h : ∃ f ∈ files, exIsOk (svc.gitBlobs f.buffer) = false) :
    (∃ e, (createGitHubRepoAndPush svc repoName files).1 = .error e)
  ∧ ∀ it, GhEvent.treeCall it ∉ (createGitHubRepoAndPush svc repoName files).2 := by
  rcases hu : svc.userRepos repoName with e | repo
  · refine ⟨⟨"Failed to create repo: " ++ e, by simp [createGitHubRepoAndPush, hu]⟩, ?_⟩
    intro it hmem
    simp [createGitHubRepoAndPush, hu] at hmem
  · rcases hcb : createBlobs svc files with ⟨res, tr⟩
    rcases res with e | blobs
    · have hev := createBlobs_events svc files
      rw [hcb] at hev
      refine ⟨⟨e, by simp [createGitHubRepoAndPush, hu, hcb]⟩, ?_⟩
      intro it hmem
      simp only [createGitHubRepoAndPush, hu, hcb, List.mem_cons] at hmem
      rcases hmem with hmem | hmem
      · exact absurd hmem (by simp)
      · rcases hev _ hmem with ⟨g, _, he⟩
        exact absurd he (by simp)
    · have hok := createBlobs_ok svc files blobs (by rw [hcb])
      rcases h with ⟨f, hf, hfail⟩
      rw [hcb] at hok
      rw [hok.2 f hf] at hfail
      simp at hfail

/-- Witness for C2: a service whose blob endpoint answers 500. -/
theorem blob_failure_aborts_publish_witness :
    (∃ e, (createGitHubRepoAndPush svcBlobFail "r" filesOne).1 = .error e)
  ∧ ∀ it, GhEvent.treeCall it ∉ (createGitHubRepoAndPush svcBlobFail "r" filesOne).2 :=
  blob_failure_aborts_publish svcBlobFail "r" filesOne ⟨⟨"a.txt", [1, 2]⟩, by simp [filesOne], rfl⟩

/-- C5 counterexample: the publisher's success value is identical for
a one-file and a two-file input against the same service, so it cannot
carry a `filesPublished` count equal to the input size; the code
returns only `{ html_url }` (server.js line 250). -/
theorem publish_result_counterexample :
    (createGitHubRepoAndPush svcAllOk "r" filesOne).1
      = (createGitHubRepoAndPush svcAllOk "r" filesTwo).1
  ∧ filesOne.length ≠ filesTwo.length := by
  exact ⟨rfl, by decide⟩

/-- C5 amended: on success the publisher returns exactly the
repo-creation response (whose `html_url` is the repository URL); no
file count is part of the returned value. -/
theorem publish_returns_repo_response (svc : GhService) (repoName : String)
    (files : List CollectedFile) (r : RepoInfo)
    (h : (createGitHubRepoAndPush svc repoName files).1 = .ok r) :
    svc.userRepos repoName = .ok r := by
  rcases hu : svc.userRepos repoName with e | repo
  · simp [createGitHubRepoAndPush, hu] at h
  · rcases hcb : createBlobs svc files with ⟨res, tr⟩
    rcases res with e | blobs
    · simp [createGitHubRepoAndPush, hu, hcb] at h
    · simp only [createGitHubRepoAndPush, hu, hcb] at h
      rcases ht : svc.gitTrees (blobs.map fun b =>
          ({path := b.path, mode := "100644", type := "blob", sha := b.sha} : TreeItem)) with e | ts
      · simp [ht] at h
      · simp only [ht] at h
        rcases hc : svc.gitCommits commitMessage ts with e | cs
        · simp [hc] at h
        · simp only [hc] at h
          rcases hf : svc.gitRefs "refs/heads/main" cs with e | u
          · simp [hf] at h
          · simp only [hf] at h
            injection h with h2
            rw [h2]

/-- Witness for C5's amended theorem on a concrete successful run. -/
theorem publish_returns_repo_response_witness :
    svcAllOk.userRepos "r" = .ok ⟨"me", "https://github.com/me/r"⟩ :=
  publish_returns_repo_response svcAllOk "r" filesTwo ⟨"me", "https://github.com/me/r"⟩ rfl

/-- C6 counterexample: the walk performs no deduplication, so two
sibling files both named `a` yield two entries with the identical path
`R/a`; and a file whose display name is empty is emitted with an empty
path. Both halves of the claimed invariant fail on the code. -/
theorem collector_path_invariant_counterexample :
    (∃ l, collectDriveFiles (.ok dupNameTree) = .ok l ∧ ¬ (l.map (·.path)).Nodup)
  ∧ (∃ l, collectDriveFiles (.ok emptyNameTree) = .ok l ∧ "" ∈ l.map (·.path)) :=
  ⟨⟨[⟨"R/a", [0]⟩, ⟨"R/a", [0]⟩], rfl, by decide⟩,
   ⟨[⟨"", [0]⟩], rfl, by decide⟩⟩

/-- C6 amended: if every name in the tree is non-empty and slash-free
and the children of each folder (across all pages of its listing) have
pairwise distinct names, then every emitted path is non-empty and no
two emitted entries share a path. -/
theorem collector_paths_nonempty_nodup (root : DriveNode) (l : List CollectedFile)
    (hg : goodNode root = true) (h : collectDriveFiles (.ok root) = .ok l) :
    (∀ p ∈ l.map (·.path), p ≠ "") ∧ (l.map (·.path)).Nodup := by
  rw [collect_paths root l h]
  exact ⟨relPathsNode_nonempty root (goodNode_name root hg).1, goodRoot_nodup root hg⟩

/-- Witness for C6's amended theorem on a concrete well-named tree. -/
theorem collector_paths_nonempty_nodup_witness :
    (∀ p ∈ ([⟨"R/docs/budget", [0]⟩, ⟨"R/logo.png", [0]⟩] : List CollectedFile).map (·.path),
        p ≠ "")
  ∧ (([⟨"R/docs/budget", [0]⟩, ⟨"R/logo.png", [0]⟩] : List CollectedFile).map (·.path)).Nodup :=
  collector_paths_nonempty_nodup nestedTree
    [⟨"R/docs/budget", [0]⟩, ⟨"R/logo.png", [0]⟩] (by decide) rfl

/-- C7: if any fetch needed during collection fails — a leaf whose
chosen download rejects, or a folder listing page that rejects — the
entire collection aborts with a propagated error; no partial
collection is returned. -/
theorem collection_all_or_nothing (root : DriveNode) (h : anyFailureNode root = true) :
    ∃ e, collectDriveFiles (.ok root) = .error e := by
  cases root with
  | leaf name mime cs =>
    rw [anyFailureNode] at h
    rcases hd : downloadFileAsBuffer mime cs with e | buf
    · exact ⟨e, by simp [collectDriveFiles, hd]⟩
    · rw [hd] at h
      simp at h
  | folder name ps le =>
    rw [anyFailureNode] at h
    rcases anyFailurePages_errors ps le h (name ++ "/") with ⟨e, he⟩
    exact ⟨e, he⟩

/-- Witness for C7: a single file whose raw download rejects. -/
theorem collection_all_or_nothing_witness :
    ∃ e, collectDriveFiles (.ok failLeaf) = .error e :=
  collection_all_or_nothing failLeaf rfl

/-- C8: the pagination loop consumes exactly the pages the listing
returns, in order, while a next page exists: a folder walk succeeds
with result `l` precisely when every page's entries walk successfully
and `l` is the in-order concatenation of the per-page results — no
page skipped, none processed twice. -/
theorem pagination_complete (pfx : String) (ps : List (List DriveNode))
    (l : List CollectedFile) :
    walkPages ps none pfx = .ok l ↔
      ∃ rs : List (List CollectedFile),
        List.Forall₂ (fun p r => walkPage p pfx = .ok r) ps rs ∧ l = rs.flatten := by
  induction ps generalizing l with
  | nil =>
    constructor
    · intro h
      rw [walkPages] at h
      injection h with h1
      exact ⟨[], List.Forall₂.nil, by simp [h1.symm]⟩
    · rintro ⟨rs, hall, hl⟩
      cases hall
      rw [walkPages]
      simp [hl]
  | cons p rest ih =>
    constructor
    · intro h
      rw [walkPages] at h
      rcases hp : walkPage p pfx with e | a
      · rw [hp] at h; simp at h
      · rw [hp] at h
        rcases hr : walkPages rest none pfx with e | b
        · rw [hr] at h; simp at h
        · rw [hr] at h
          injection h with h1
          rcases (ih b).mp hr with ⟨rs, hall, hb⟩
          exact ⟨a :: rs, List.Forall₂.cons hp hall, by simp [h1.symm, hb]⟩
    · rintro ⟨rs, hall, hl⟩
      rcases hall with _ | ⟨hp, hall⟩
      rename_i a rs'
      rw [walkPages, hp]
      rw [(ih _).mpr ⟨rs', hall, rfl⟩]
      simp [hl]

/-- C3 counterexample: a container root named `R` directly containing
a leaf named `L` (twice, under the service's naming quirk the spec
itself acknowledges) produces two entries with path `R/L`, not exactly
one. -/
theorem path_composition_counterexample :
    twoLeavesNamedL = DriveNode.folder "R"
        [[.leaf "L" "text/plain" okContent, .leaf "L" "text/plain" okContent]] none
  ∧ ∃ l, collectDriveFiles (.ok twoLeavesNamedL) = .ok l
      ∧ l.countP (fun cf => cf.path == "R/L") ≠ 1 :=
  ⟨rfl, ⟨[⟨"R/L", [0]⟩, ⟨"R/L", [0]⟩], rfl, by decide⟩⟩

/-- C3 amended: provided the root's child listing contains exactly one
leaf named `L` and `L` is slash-free, the output has exactly one entry
with path `R/L`; and a leaf `L` nested under containers `R/A/B` is
emitted with path `R/A/B/L`. -/
theorem path_composition_amended :
    (∀ (R L : String) (pages : List (List DriveNode)) (le : Option String)
        (l : List CollectedFile),
        collectDriveFiles (.ok (.folder R pages le)) = .ok l →
        '/' ∉ L.data →
        pages.flatten.countP (isLeafNamed L) = 1 →
        l.countP (fun cf => cf.path == R ++ "/" ++ L) = 1)
  ∧ (∀ (R A B L : String) (pages pagesA pagesB : List (List DriveNode))
        (le leA leB : Option String) (mimeType : String) (content : ContentSrc)
        (l : List CollectedFile),
        collectDriveFiles (.ok (.folder R pages le)) = .ok l →
        DriveNode.folder A pagesA leA ∈ pages.flatten →
        DriveNode.folder B pagesB leB ∈ pagesA.flatten →
        DriveNode.leaf L mimeType content ∈ pagesB.flatten →
        R ++ "/" ++ A ++ "/" ++ B ++ "/" ++ L ∈ l.map (·.path)) := by
  constructor
  · intro R L pages le l h hL hcount
    have hp := collect_paths _ _ h
    have hmapped : l.countP (fun cf => cf.path == R ++ "/" ++ L)
        = (l.map (·.path)).countP (fun s => s == R ++ "/" ++ L) := by
      rw [List.countP_map]
      rfl
    rw [hmapped, hp, relPathsNode, List.countP_map]
    have hcong : ∀ r ∈ relPathsPages pages,
        (((fun s => s == R ++ "/" ++ L) ∘ (fun r => R ++ "/" ++ r)) r = true
          ↔ (r == L) = true) := by
      intro r _
      simp only [Function.comp, beq_iff_eq]
      constructor
      · intro hc
        exact string_append_left_cancel (R ++ "/") r L hc
      · intro hc
        rw [hc]
    rw [List.countP_congr hcong, relPathsPages_flatten, relPathsPage_countP L hL]
    exact hcount
  · intro R A B L pages pagesA pagesB le leA leB mimeType content l h hA hB hLmem
    have hp := collect_paths _ _ h
    rw [hp, relPathsNode]
    have m3 : L ∈ relPathsPage pagesB.flatten :=
      mem_relPathsPage_of_mem pagesB.flatten _ hLmem L (by simp [relPathsNode])
    have m2 : B ++ "/" ++ L ∈ relPathsPage pagesA.flatten := by
      refine mem_relPathsPage_of_mem pagesA.flatten _ hB (B ++ "/" ++ L) ?_
      rw [relPathsNode, relPathsPages_flatten]
      exact List.mem_map_of_mem _ m3
    have m1 : A ++ "/" ++ (B ++ "/" ++ L) ∈ relPathsPage pages.flatten := by
      refine mem_relPathsPage_of_mem pages.flatten _ hA (A ++ "/" ++ (B ++ "/" ++ L)) ?_
      rw [relPathsNode, relPathsPages_flatten]
      exact List.mem_map_of_mem _ m2
    rw [relPathsPages_flatten]
    refine List.mem_map.mpr ⟨A ++ "/" ++ (B ++ "/" ++ L), m1, ?_⟩
    simp [String.append_assoc]

/-- Witness for C3's amended theorem on a concrete two-file tree. -/
theorem path_composition_amended_witness :
    ([⟨"R/docs/budget", [0]⟩, ⟨"R/logo.png", [0]⟩] : List CollectedFile).countP
        (fun cf => cf.path == "R" ++ "/" ++ "logo.png") = 1 :=
  path_composition_amended.1 "R" "logo.png"
    [[.folder "docs" [[.leaf "budget" "application/vnd.google-apps.spreadsheet" okContent]] none,
      .leaf "logo.png" "image/png" okContent]] none
    [⟨"R/docs/budget", [0]⟩, ⟨"R/logo.png", [0]⟩] rfl (by decide) (by decide)

end DriveGit
